import Mathlib

/-!
# Verification of the har-to-curl HAR processing pipeline

A shallow embedding of the core pipeline of the har-to-curl repository:

* `src/backend/src/har/utils/har-parser.ts` — entry filtering, body stripping,
  compaction and the deduplicated LLM summary;
* `src/backend/src/har/utils/curl-generator.ts` — curl command reconstruction;
* `src/backend/src/har/utils/url-validator.ts` — SSRF URL validation;
* the `HarService` (upload / analyze / execute / cleanup orchestration).

JavaScript strings are modelled as Lean `String` (the data at issue is ASCII, so
UTF-16 code-unit indexing coincides with character indexing), JS numbers that
hold sizes/times as `Int`/`Nat`, optional values as `Option`, and thrown
exceptions as `Except`.  The WHATWG `URL` platform class is modelled by a small
parser covering the URL shapes this repository manipulates (see `parseUrl`).
-/

namespace HarToCurl

/-- One name/value pair, as used for HAR headers, query strings and form
parameters (`Array<\x7b name: string; value: string \x7d>` in the source). -/
structure Header where
  name : String
  value : String
deriving DecidableEq, Repr

/-- `postData` of a HAR request (har-parser.ts, `HarEntry` interface). -/
structure PostData where
  mimeType : String
  text : String
  params : Option (List Header)
deriving DecidableEq, Repr

/-- The `request` part of a HAR entry. -/
structure HarRequest where
  method : String
  url : String
  httpVersion : String
  headers : List Header
  queryString : List Header
  postData : Option PostData
  headersSize : Int
  bodySize : Int
deriving DecidableEq, Repr

/-- The `response.content` descriptor of a HAR entry. -/
structure HarContent where
  size : Int
  mimeType : String
  text : Option String
deriving DecidableEq, Repr

/-- The `response` part of a HAR entry. -/
structure HarResponse where
  status : Nat
  statusText : String
  httpVersion : String
  headers : List Header
  content : HarContent
  redirectURL : String
  headersSize : Int
  bodySize : Int
deriving DecidableEq, Repr

/-- The `timings` record of a HAR entry. -/
structure HarTimings where
  send : Int
  wait : Int
  receive : Int
deriving DecidableEq, Repr

/-- One HTTP transaction of the capture (har-parser.ts, `HarEntry`).  The
`cache` field of the source interface is an untyped record that no pipeline
function ever reads or writes, so it is not carried here. -/
structure HarEntry where
  startedDateTime : String
  time : Int
  request : HarRequest
  response : HarResponse
  timings : HarTimings
deriving DecidableEq, Repr

/-- Derived projection of a `HarEntry` (har-parser.ts, `CompactEntry`). -/
structure CompactEntry where
  index : Nat
  method : String
  url : String
  status : Nat
  responseType : String
  responseSize : Int
deriving DecidableEq, Repr

/-! ## JavaScript string primitives (character-list level) -/

/-- Does the list start with the given character sequence?  Model of
`String.prototype.startsWith` restricted to the characters of the strings. -/
def charsStartWith : List Char → List Char → Bool
  | _, [] => true
  | [], _ :: _ => false
  | c :: cs, p :: ps => c == p && charsStartWith cs ps

/-- Model of `String.prototype.endsWith`. -/
def charsEndWith (l suffixChars : List Char) : Bool :=
  charsStartWith l.reverse suffixChars.reverse

/-- Does `sub` occur contiguously somewhere in the list?  Model of
`String.prototype.includes`. -/
def charsContain (sub : List Char) : List Char → Bool
  | [] => charsStartWith [] sub
  | c :: cs => charsStartWith (c :: cs) sub || charsContain sub cs

/-- `s.includes(sub)` on strings. -/
def jsIncludes (s sub : String) : Bool := charsContain sub.data s.data

/-- `s.startsWith(pre)` on strings. -/
def jsStartsWith (s pre : String) : Bool := charsStartWith s.data pre.data

/-- `s.endsWith(suf)` on strings. -/
def jsEndsWith (s suf : String) : Bool := charsEndWith s.data suf.data

/-- `s.substring(0, n)`: the first `n` characters of `s` (the inputs at issue
are ASCII, where JS code-unit counting equals character counting). -/
def jsSubstringTo (s : String) (n : Nat) : String := String.mk (s.data.take n)

/-- `s.toLowerCase()`: character-wise lowering (ASCII-faithful). -/
def jsToLower (s : String) : String := String.mk (s.data.map Char.toLower)

/-- `s.toUpperCase()`: character-wise raising (ASCII-faithful). -/
def jsToUpper (s : String) : String := String.mk (s.data.map Char.toUpper)

/-- `s.split(sep)` at the character level: every separator occurrence cuts,
empty segments included (`"a&&b".split('&') = ["a","","b"]`, `"" → [""]`). -/
def splitChars (p : Char → Bool) : List Char → List (List Char)
  | [] => [[]]
  | c :: cs =>
    let r := splitChars p cs
    if p c then [] :: r
    else
      match r with
      | [] => [[c]]
      | seg :: segs => (c :: seg) :: segs

/-- Lexicographic comparison of character lists by code point — the default
string comparator of JavaScript `Array.prototype.sort()`. -/
def lexLe : List Char → List Char → Bool
  | [], _ => true
  | _ :: _, [] => false
  | c :: cs, d :: ds =>
    if c < d then true
    else if d < c then false
    else lexLe cs ds

/-! ## The WHATWG `URL` platform class

`new URL(url)` is modelled for the URL shapes this repository manipulates:
`scheme://host[:port][/path][?query][#fragment]` plus opaque-path URLs such as
`data:`/`blob:`.  The model lowercases scheme and host, strips the brackets of
an IPv6 host (generous to the source: the WHATWG serializer keeps them, which
only makes the validator's IPv6 regexes match less often), defaults an empty
path of a hierarchical URL to `/`, and does not handle userinfo,
percent-decoding or path normalization — none of which the captured URLs
settled here contain. -/

/-- Split a character list at the first occurrence of `sep`; `none` when `sep`
is absent.  The separator itself belongs to neither part. -/
def splitAtFirst (sep : Char) : List Char → Option (List Char × List Char)
  | [] => none
  | c :: cs =>
    if c == sep then some ([], cs)
    else (splitAtFirst sep cs).map (fun p => (c :: p.1, p.2))

/-- Split a character list at the first character in `stops`; the second
component starts with the stop character (or is empty). -/
def breakAtAny (stops : List Char) : List Char → List Char × List Char
  | [] => ([], [])
  | c :: cs =>
    if stops.contains c then ([], c :: cs)
    else
      let p := breakAtAny stops cs
      (c :: p.1, p.2)

/-- The components of a parsed URL exposed by the WHATWG `URL` class that the
pipeline reads: `protocol` (with trailing colon), `hostname` (lowercased,
IPv6 brackets stripped), `port`, `pathname` and `search` (without `?`). -/
structure ParsedUrl where
  protocol : String
  hostname : String
  port : String
  pathname : String
  search : String
deriving DecidableEq, Repr

/-- Model of `new URL(url)`; `none` models the constructor throwing. -/
def parseUrl (url : String) : Option ParsedUrl :=
  match splitAtFirst ':' url.data with
  | none => none
  | some (schemeChars, rest) =>
    if schemeChars.isEmpty || !(schemeChars.headD 'a').isAlpha then none
    else
      let protocol := String.mk (schemeChars.map Char.toLower) ++ ":"
      if charsStartWith rest ['/', '/'] then
        let afterSlashes := rest.drop 2
        let authPath := breakAtAny ['/', '?', '#'] afterSlashes
        let hostPort : List Char × List Char :=
          match authPath.1 with
          | '[' :: t =>
            match splitAtFirst ']' t with
            | some (inside, after) =>
              (inside, match after with | ':' :: p => p | _ => [])
            | none => (t, [])
          | other =>
            match splitAtFirst ':' other with
            | some (h, p) => (h, p)
            | none => (other, [])
        if hostPort.1.isEmpty then none
        else
          let pathQuery := breakAtAny ['?', '#'] authPath.2
          let search : String :=
            match pathQuery.2 with
            | '?' :: q => String.mk (breakAtAny ['#'] q).1
            | _ => ""
          some { protocol := protocol,
                 hostname := String.mk (hostPort.1.map Char.toLower),
                 port := String.mk hostPort.2,
                 pathname := if pathQuery.1.isEmpty then "/" else String.mk pathQuery.1,
                 search := search }
      else
        let pathQuery := breakAtAny ['?', '#'] rest
        let search : String :=
          match pathQuery.2 with
          | '?' :: q => String.mk (breakAtAny ['#'] q).1
          | _ => ""
        some { protocol := protocol, hostname := "", port := "",
               pathname := String.mk pathQuery.1, search := search }

/-! ## har-parser.ts — filtering -/

/-- `STATIC_ASSET_TYPES` of har-parser.ts. -/
def STATIC_ASSET_TYPES : List String :=
  ["text/html", "text/css", "text/javascript", "application/javascript",
   "application/x-javascript", "image/", "font/", "audio/", "video/",
   "application/font", "application/x-font", "application/woff",
   "application/octet-stream"]

/-- `STATIC_ASSET_EXTENSIONS` of har-parser.ts. -/
def STATIC_ASSET_EXTENSIONS : List String :=
  [".js", ".css", ".png", ".jpg", ".jpeg", ".gif", ".svg", ".ico",
   ".woff", ".woff2", ".ttf", ".eot", ".map", ".webp", ".avif"]

/-- `TRACKING_DOMAINS` of har-parser.ts. -/
def TRACKING_DOMAINS : List String :=
  ["google-analytics.com", "googletagmanager.com", "doubleclick.net",
   "facebook.com", "facebook.net", "fbcdn.net",
   "analytics", "tracking", "pixel", "beacon",
   "hotjar.com", "segment.com", "mixpanel.com",
   "sentry.io", "newrelic.com", "datadoghq.com"]

/-- `isStaticAssetType` of har-parser.ts. -/
def isStaticAssetType (mimeType : String) : Bool :=
  STATIC_ASSET_TYPES.any (fun t => jsIncludes (jsToLower mimeType) t)

/-- `isStaticAssetUrl` of har-parser.ts: a failing URL parse yields `false`
(the source catches the exception). -/
def isStaticAssetUrl (url : String) : Bool :=
  match parseUrl url with
  | some p => STATIC_ASSET_EXTENSIONS.any (fun ext => jsEndsWith (jsToLower p.pathname) ext)
  | none => false

/-- `isTrackingDomain` of har-parser.ts. -/
def isTrackingDomain (url : String) : Bool :=
  TRACKING_DOMAINS.any (fun d => jsIncludes (jsToLower url) d)

/-- The removal reasons of `FilterBreakdown`, in the order the source tests
its predicates. -/
inductive RemovalReason
  | html
  | staticAssetMime
  | staticAssetUrl
  | tracking
  | dataBlob
  | redirects
  | options
deriving DecidableEq, Repr

/-- The predicate cascade of the `filterEntries` callback: the first matching
predicate (in source order) gives the removal reason; `none` means the entry
is kept.  `response.content.mimeType || ''` is the identity on the (always
present) string field and is therefore not repeated here. -/
def classifyEntry (entry : HarEntry) : Option RemovalReason :=
  let mimeType := entry.response.content.mimeType
  let url := entry.request.url
  if jsIncludes mimeType "text/html" then some .html
  else if isStaticAssetType mimeType then some .staticAssetMime
  else if isStaticAssetUrl url then some .staticAssetUrl
  else if isTrackingDomain url then some .tracking
  else if jsStartsWith url "data:" || jsStartsWith url "blob:" then some .dataBlob
  else if 300 ≤ entry.response.status && entry.response.status < 400 then some .redirects
  else if entry.request.method == "OPTIONS" then some .options
  else none

/-- `FilterBreakdown` of har-parser.ts. -/
structure FilterBreakdown where
  html : Nat
  staticAssetMime : Nat
  staticAssetUrl : Nat
  tracking : Nat
  dataBlob : Nat
  redirects : Nat
  options : Nat
deriving DecidableEq, Repr

/-- The aggregate stats returned by `filterEntries`. -/
structure FilterStats where
  total : Nat
  removed : Nat
  kept : Nat
deriving DecidableEq, Repr

/-- The full return value of `filterEntries`. -/
structure FilterResult where
  filtered : List HarEntry
  stats : FilterStats
  breakdown : FilterBreakdown
deriving DecidableEq, Repr

/-- How many entries the cascade attributes to reason `r`. -/
def countReason (entries : List HarEntry) (r : RemovalReason) : Nat :=
  entries.countP (fun e => classifyEntry e == some r)

/-- `filterEntries` of har-parser.ts.  The imperative source increments one
breakdown counter at the first matching predicate and drops the entry; this is
exactly counting, per reason, the entries `classifyEntry` sends to that
reason, while the kept entries are those it sends to `none`.  `stats.removed`
is computed as `entries.length - filtered.length`, as in the source. -/
def filterEntries (entries : List HarEntry) : FilterResult :=
  let filtered := entries.filter (fun e => (classifyEntry e).isNone)
  { filtered := filtered,
    stats := { total := entries.length,
               removed := entries.length - filtered.length,
               kept := filtered.length },
    breakdown := { html := countReason entries .html,
                   staticAssetMime := countReason entries .staticAssetMime,
                   staticAssetUrl := countReason entries .staticAssetUrl,
                   tracking := countReason entries .tracking,
                   dataBlob := countReason entries .dataBlob,
                   redirects := countReason entries .redirects,
                   options := countReason entries .options } }

/-- The sum of the seven breakdown counters. -/
def breakdownSum (b : FilterBreakdown) : Nat :=
  b.html + b.staticAssetMime + b.staticAssetUrl + b.tracking +
    b.dataBlob + b.redirects + b.options

/-! ## har-parser.ts — body stripping and compaction -/

/-- The per-entry transform of `stripBodies`: response body text dropped,
request `postData.text` capped at 10000 characters
(`text?.substring(0, 10000) || ''`, whose `|| ''` branch is the identity on a
string field), every other field spread through unchanged. -/
def stripEntry (entry : HarEntry) : HarEntry :=
  { entry with
    request := { entry.request with
      postData := entry.request.postData.map
        (fun pd => { pd with text := jsSubstringTo pd.text 10000 }) },
    response := { entry.response with
      content := { entry.response.content with text := none } } }

/-- `stripBodies` of har-parser.ts. -/
def stripBodies (entries : List HarEntry) : List HarEntry :=
  entries.map stripEntry

/-- The projection of `toCompactEntries` at map position `i`.
`mimeType || 'unknown'` replaces only the empty string (the JS falsy string);
`size || 0` is the identity on the (always present) numeric field. -/
def toCompactAt (i : Nat) (entry : HarEntry) : CompactEntry :=
  { index := i,
    method := entry.request.method,
    url := entry.request.url,
    status := entry.response.status,
    responseType := if entry.response.content.mimeType == "" then "unknown"
                    else entry.response.content.mimeType,
    responseSize := entry.response.content.size }

/-- `entries.map((entry, index) => ...)` with the running map index. -/
def toCompactFrom (i : Nat) : List HarEntry → List CompactEntry
  | [] => []
  | e :: es => toCompactAt i e :: toCompactFrom (i + 1) es

/-- `toCompactEntries` of har-parser.ts: the recorded `index` is the entry's
position in the list handed to this function. -/
def toCompactEntries (entries : List HarEntry) : List CompactEntry :=
  toCompactFrom 0 entries

/-! ## har-parser.ts — deduplicated LLM summary -/

/-- The keys of `new URL(url).searchParams`, in query order: split the search
string on `&`, skip empty segments, keep everything before the first `=` of a
segment.  A name occurring several times in the query is yielded once per
occurrence, exactly as `URLSearchParams.keys()` does.  (Percent-decoding is
not modelled; the keys at issue are plain names.) -/
def searchKeys (search : String) : List String :=
  (((splitChars (fun c => c == '&') search.data).filter
      (fun seg => !seg.isEmpty)).map
    (fun seg => String.mk (breakAtAny ['='] seg).1))

/-- JavaScript `Array.prototype.sort()` on strings: sort by the default
lexicographic string comparison. -/
def insertSorted (s : String) : List String → List String
  | [] => [s]
  | t :: ts => if lexLe s.data t.data then s :: t :: ts else t :: insertSorted s ts

/-- JavaScript `Array.prototype.sort()` with the default comparator, as
insertion sort (the keys sorted here are strings, where equal keys are
identical, so any stable model gives the array the engine produces). -/
def sortStrings (l : List String) : List String :=
  l.foldr insertSorted []

/-- `normalizeUrl` of har-parser.ts: `(origin + pathname, sorted param keys)`;
an unparsable URL falls back to `(url, [])` (the source catches). -/
def normalizeUrl (url : String) : String × List String :=
  match parseUrl url with
  | some p =>
    let origin := p.protocol ++ "//" ++ p.hostname ++
      (if p.port == "" then "" else ":" ++ p.port)
    (origin ++ p.pathname, sortStrings (searchKeys p.search))
  | none => (url, [])

/-- `getDeduplicationKey` of har-parser.ts. -/
def getDeduplicationKey (entry : CompactEntry) : String :=
  let n := normalizeUrl entry.url
  entry.method ++ " " ++ n.1 ++ " ?" ++ String.intercalate "&" n.2

/-- Scaled round-half-up division: the digits of `(n / denom).toFixed(1)`
times ten.  This models `Number.prototype.toFixed(1)` up to the sub-ulp
floating-point fuzz JS exhibits at exact `.x5` ties. -/
def fixedOneDecimal (n denom : Nat) : Nat := (n * 10 + denom / 2) / denom

/-- `formatBytes` of har-parser.ts. -/
def formatBytes (bytes : Int) : String :=
  if bytes == 0 then "0 B"
  else if bytes < 1024 then toString bytes ++ " B"
  else if bytes < 1048576 then
    let t := fixedOneDecimal bytes.toNat 1024
    toString (t / 10) ++ "." ++ toString (t % 10) ++ " KB"
  else
    let t := fixedOneDecimal bytes.toNat 1048576
    toString (t / 10) ++ "." ++ toString (t % 10) ++ " MB"

/-- One line of the non-deduplicated summary
(`[index] METHOD url → status (type, size)`). -/
def summaryLineFull (e : CompactEntry) : String :=
  "[" ++ toString e.index ++ "] " ++ e.method ++ " " ++ e.url ++ " → " ++
    toString e.status ++ " (" ++ e.responseType ++ ", " ++
    formatBytes e.responseSize ++ ")"

/-- `Map.set` of the grouping loop of `createLlmSummary`: appending to the
value of an existing key keeps the key's position (JS `Map` preserves
insertion order); a fresh key goes to the end. -/
def upsertGroup (groups : List (String × List CompactEntry)) (key : String)
    (entry : CompactEntry) : List (String × List CompactEntry) :=
  match groups with
  | [] => [(key, [entry])]
  | g :: gs =>
    if g.1 == key then (g.1, g.2 ++ [entry]) :: gs
    else g :: upsertGroup gs key entry

/-- The grouping loop of `createLlmSummary`: a JS `Map` from deduplication key
to the entries carrying that key, in insertion order. -/
def buildGroups (entries : List CompactEntry) : List (String × List CompactEntry) :=
  entries.foldl (fun gs e => upsertGroup gs (getDeduplicationKey e) e) []

/-- The compact URL of a summary line: base plus `name=...` placeholders for
the parameter names (values discarded). -/
def compactUrlOf (url : String) : String :=
  let n := normalizeUrl url
  if n.2.length > 0 then
    n.1 ++ "?" ++ String.intercalate "&" (n.2.map (fun name => name ++ "=..."))
  else n.1

/-- The line template of the deduplicated summary (without the count
suffix): `[index] METHOD compactUrl → status (type, size)`. -/
def compactLine (rep : CompactEntry) : String :=
  "[" ++ toString rep.index ++ "] " ++ rep.method ++ " " ++ compactUrlOf rep.url ++
    " → " ++ toString rep.status ++ " (" ++ rep.responseType ++ ", " ++
    formatBytes rep.responseSize ++ ")"

/-- One line of the deduplicated summary, rendered from a group: the
representative is `group[0]` (the first occurrence) and the `[xN]` suffix
appears exactly when the group has more than one member.  `buildGroups` never
produces an empty group, so the `[]` arm is unreachable. -/
def renderGroup (g : String × List CompactEntry) : String :=
  match g.2 with
  | [] => ""
  | rep :: _ =>
    compactLine rep ++
      (if g.2.length > 1 then " [x" ++ toString g.2.length ++ "]" else "")

/-- `LlmSummaryResult` of har-parser.ts. -/
structure LlmSummaryResult where
  summary : String
  uniquePatterns : Nat
  originalEntries : Nat
deriving DecidableEq, Repr

/-- `createLlmSummary` of har-parser.ts (the source defaults `deduplicate` to
`true`; callers here always pass it). -/
def createLlmSummary (entries : List CompactEntry) (deduplicate : Bool) :
    LlmSummaryResult :=
  if !deduplicate then
    { summary := String.intercalate "\n" (entries.map summaryLineFull),
      uniquePatterns := entries.length,
      originalEntries := entries.length }
  else
    let groups := buildGroups entries
    { summary := String.intercalate "\n" (groups.map renderGroup),
      uniquePatterns := groups.length,
      originalEntries := entries.length }

/-! ## curl-generator.ts -/

/-- `SKIP_HEADERS` of curl-generator.ts. -/
def SKIP_HEADERS : List String :=
  ["host", "connection", "content-length", "accept-encoding",
   ":method", ":path", ":scheme", ":authority"]

/-- `SENSITIVE_HEADERS` of curl-generator.ts. -/
def SENSITIVE_HEADERS : List String :=
  ["authorization", "cookie", "x-api-key", "x-auth-token", "proxy-authorization"]

/-- The single-quote character. -/
def squote : Char := Char.ofNat 39

/-- The backslash character. -/
def bslash : Char := Char.ofNat 92

/-- `str.replace(/'/g, "'\\''")` at the character level: every single quote
becomes quote-backslash-quote-quote, all other characters pass through. -/
def escapeChars : List Char → List Char
  | [] => []
  | c :: cs =>
    if c == squote then squote :: bslash :: squote :: squote :: escapeChars cs
    else c :: escapeChars cs

/-- `escapeShell` of curl-generator.ts. -/
def escapeShell (s : String) : String := String.mk (escapeChars s.data)

/-- The value printed for a header in the generated command: `[REDACTED]` for
sensitive headers (case-insensitive name match), the real value otherwise. -/
def displayHeaderValue (h : Header) : String :=
  if SENSITIVE_HEADERS.contains (jsToLower h.name) then "[REDACTED]" else h.value

/-- The `-H 'Name: value'` part pushed for one header. -/
def renderHeaderPart (h : Header) : String :=
  "-H '" ++ escapeShell (h.name ++ ": " ++ displayHeaderValue h) ++ "'"

/-- The headers surviving the `SKIP_HEADERS` filter, in original order. -/
def keptHeaders (req : HarRequest) : List Header :=
  req.headers.filter (fun h => !(SKIP_HEADERS.contains (jsToLower h.name)))

/-- The `-H` parts of the generated command. -/
def curlHeaderParts (req : HarRequest) : List String :=
  (keptHeaders req).map renderHeaderPart

/-- `hasBody` of `generateCurl`:
`!!postData?.text || (postData?.params && postData.params.length > 0)` — an
empty `text` string is falsy in JS and counts as no body. -/
def hasBody (req : HarRequest) : Bool :=
  match req.postData with
  | some pd => pd.text != "" || (pd.params.getD []).length > 0
  | none => false

/-- The method-flag part: `-X METHOD` except for `GET` and for `POST` with a
body (the method is uppercased first, as in the source). -/
def methodParts (req : HarRequest) : List String :=
  let method := jsToUpper req.method
  if method != "GET" && !(method == "POST" && hasBody req) then ["-X " ++ method]
  else []

/-- The body parts: `--data-raw` for a non-empty `postData.text`, otherwise
one `--data-urlencode` per form parameter when params are present and
non-empty. -/
def bodyParts (req : HarRequest) : List String :=
  match req.postData with
  | some pd =>
    if pd.text != "" then ["--data-raw '" ++ escapeShell pd.text ++ "'"]
    else
      match pd.params with
      | some ps =>
        if ps.length > 0 then
          ps.map (fun p => "--data-urlencode '" ++ escapeShell (p.name ++ "=" ++ p.value) ++ "'")
        else []
      | none => []
  | none => []

/-- The `parts` array of `generateCurl`, in push order. -/
def generateCurlParts (entry : HarEntry) : List String :=
  ["curl"] ++ methodParts entry.request ++
    ["'" ++ escapeShell entry.request.url ++ "'"] ++
    curlHeaderParts entry.request ++ bodyParts entry.request

/-- `generateCurl` of curl-generator.ts: the parts joined by
backslash-newline-two-spaces. -/
def generateCurl (entry : HarEntry) : String :=
  String.intercalate " \\\n  " (generateCurlParts entry)

/-! ## url-validator.ts

Each entry of `BLOCKED_IP_PATTERNS` is a start-anchored regular expression
without closures; each is transcribed as a predicate on the character list of
the hostname, with character classes `[x-y]` as code-point ranges. -/

/-- The regex character class `[lo-hi]`. -/
def charIn (lo hi c : Char) : Bool := decide (lo ≤ c) && decide (c ≤ hi)

/-- Regex 1: loopback (127/8). -/
def matchLoopback4 : List Char → Bool
  | '1' :: '2' :: '7' :: '.' :: _ => true
  | _ => false

/-- Regex 2: private class A (10/8). -/
def matchPrivateA : List Char → Bool
  | '1' :: '0' :: '.' :: _ => true
  | _ => false

/-- Regex 3: private class B.  The alternation has width two, so the two
characters after `172.` decide it, followed by a mandatory dot. -/
def matchPrivateB : List Char → Bool
  | '1' :: '7' :: '2' :: '.' :: c1 :: c2 :: '.' :: _ =>
    (c1 == '1' && charIn '6' '9' c2) ||
    (c1 == '2' && charIn '0' '9' c2) ||
    (c1 == '3' && charIn '0' '1' c2)
  | _ => false

/-- Regex 4: private class C (192.168/16). -/
def matchPrivateC : List Char → Bool
  | '1' :: '9' :: '2' :: '.' :: '1' :: '6' :: '8' :: '.' :: _ => true
  | _ => false

/-- Regex 5: link-local / AWS metadata (169.254/16). -/
def matchLinkLocal4 : List Char → Bool
  | '1' :: '6' :: '9' :: '.' :: '2' :: '5' :: '4' :: '.' :: _ => true
  | _ => false

/-- Regex 6: "this" network (0/8). -/
def matchThisNetwork : List Char → Bool
  | '0' :: '.' :: _ => true
  | _ => false

/-- The second-octet alternation of the carrier-grade NAT regex,
`(6[4-9]|[7-9][0-9]|1[01][0-9]|12[0-7])` followed by a dot.  The
two-character alternatives require the dot at position two; failing that, the
three-character ones require a digit there and the dot one later — the two
branches cover the alternation without backtracking. -/
def matchCgnatOctet : List Char → Bool
  | c1 :: c2 :: c3 :: rest =>
    if c3 == '.' then
      (c1 == '6' && charIn '4' '9' c2) ||
      (charIn '7' '9' c1 && charIn '0' '9' c2)
    else
      match rest with
      | c4 :: _ =>
        if c4 == '.' then
          (c1 == '1' && (c2 == '0' || c2 == '1') && charIn '0' '9' c3) ||
          (c1 == '1' && c2 == '2' && charIn '0' '7' c3)
        else false
      | [] => false
  | _ => false

/-- Regex 7: carrier-grade NAT (100.64/10). -/
def matchCgnat : List Char → Bool
  | '1' :: '0' :: '0' :: '.' :: rest => matchCgnatOctet rest
  | _ => false

/-- Regex 8: IPv6 loopback, anchored on both sides (`::1` exactly). -/
def matchV6Loopback (l : List Char) : Bool := l == [':', ':', '1']

/-- Regex 9: textual prefix `fc00:`. -/
def matchV6UniqueLocal : List Char → Bool
  | 'f' :: 'c' :: '0' :: '0' :: ':' :: _ => true
  | _ => false

/-- Regex 10: textual prefix `fe80:`. -/
def matchV6LinkLocal : List Char → Bool
  | 'f' :: 'e' :: '8' :: '0' :: ':' :: _ => true
  | _ => false

/-- `isBlockedIp` of url-validator.ts: `BLOCKED_IP_PATTERNS.some(...)`, in
source order. -/
def isBlockedIp (ip : String) : Bool :=
  matchLoopback4 ip.data || matchPrivateA ip.data || matchPrivateB ip.data ||
    matchPrivateC ip.data || matchLinkLocal4 ip.data || matchThisNetwork ip.data ||
    matchCgnat ip.data || matchV6Loopback ip.data || matchV6UniqueLocal ip.data ||
    matchV6LinkLocal ip.data

/-- `BLOCKED_HOSTNAMES` of url-validator.ts. -/
def BLOCKED_HOSTNAMES : List String :=
  ["localhost", "metadata.google.internal", "metadata.internal"]

/-- The distinct `BadRequestException`s of `validateUrl`, by message. -/
inductive UrlValidationError
  | invalidUrl
  | protocolNotAllowed (protocol : String)
  | blockedHostname (hostname : String)
  | blockedIp
deriving DecidableEq, Repr

/-- Steps 1–4 of `validateUrl` of url-validator.ts: parse, protocol
allowlist, hostname denylist, literal-IP denylist.  Step 5 (resolve the
hostname through DNS and re-check the resolved address) performs network I/O
and is outside this synchronous model; a URL this function rejects is rejected
before any DNS resolution or fetch is attempted. -/
def validateUrlSync (url : String) : Except UrlValidationError Unit :=
  match parseUrl url with
  | none => .error .invalidUrl
  | some parsed =>
    if parsed.protocol != "http:" && parsed.protocol != "https:" then
      .error (.protocolNotAllowed parsed.protocol)
    else
      let hostname := jsToLower parsed.hostname
      if BLOCKED_HOSTNAMES.contains hostname then .error (.blockedHostname hostname)
      else if isBlockedIp hostname then .error .blockedIp
      else .ok ()

/-! ## HarService (upload / analyze / execute / cleanup) -/

/-- `TTL_MS` of `HarService`: 30 minutes. -/
def TTL_MS : Nat := 30 * 60 * 1000

/-- The sweep interval of the `setInterval` in the `HarService` constructor:
5 minutes. -/
def SWEEP_INTERVAL_MS : Nat := 5 * 60 * 1000

/-- One value of the `HarService` store (`StoredHar` in the source), with the
creation timestamp in milliseconds. -/
structure StoredHar where
  entries : List HarEntry
  compactEntries : List CompactEntry
  createdAt : Nat
deriving DecidableEq, Repr

/-- `this.store.get(id)`, as performed by `analyze` and `getEntries`: a plain
map lookup, with no expiry check of its own. -/
def storeGet (store : List (String × StoredHar)) (id : String) : Option StoredHar :=
  (store.find? (fun s => s.1 == id)).map (fun s => s.2)

/-- `HarService.cleanup` at wall-clock time `now`: delete every session whose
age strictly exceeds `TTL_MS`. -/
def cleanupStore (now : Nat) (store : List (String × StoredHar)) :
    List (String × StoredHar) :=
  store.filter (fun s => !(now - s.2.createdAt > TTL_MS))

/-- The session value `upload` stores for a parsed file at time `now`:
filtered entries with bodies stripped, plus their compact projections
(`toCompactEntries(filtered)`). -/
def uploadStored (fileEntries : List HarEntry) (now : Nat) : StoredHar :=
  let filtered := (filterEntries fileEntries).filtered
  { entries := stripBodies filtered,
    compactEntries := toCompactEntries filtered,
    createdAt := now }

/-- The `entries` field of the upload response: compact projections of the
*filtered* entries. -/
def uploadResponseEntries (fileEntries : List HarEntry) : List CompactEntry :=
  toCompactEntries (filterEntries fileEntries).filtered

/-- The `allEntries` field of the upload response: compact projections of the
raw entry list. -/
def uploadResponseAllEntries (fileEntries : List HarEntry) : List CompactEntry :=
  toCompactEntries fileEntries

/-- The header filter of `analyze`'s `requestDetails` extraction: keep a
header unless its lowercased name starts with `:` or is `host`, `connection`
or `content-length`. -/
def analyzeKeepsHeader (h : Header) : Bool :=
  let name := jsToLower h.name
  !(jsStartsWith name ":") && name != "host" && name != "connection" &&
    name != "content-length"

/-- The `requestHeaders` record built by `analyze`: a JS object assignment
`requestHeaders[h.name] = h.value` per kept header, keyed by the *original*
header name, modelled as iterated function update.  A later assignment to the
same key overwrites the earlier value. -/
def buildRequestHeaders (headers : List Header) : String → Option String :=
  headers.foldl
    (fun m h =>
      if analyzeKeepsHeader h then fun k => if k == h.name then some h.value else m k
      else m)
    (fun _ => none)

/-- `ExecuteRequestDto` of analyze-har.dto.ts. -/
structure ExecuteRequestDto where
  url : String
  method : String
  headers : Option (List (String × String))
  body : Option String
deriving DecidableEq, Repr

/-- The outbound `fetch` options `execute` assembles (method, headers, body;
the timeout signal carries no data). -/
structure FetchOptionsModel where
  method : String
  headers : List (String × String)
  body : Option String
deriving DecidableEq, Repr

/-- The `fetchOptions` built by `HarService.execute`: the body is attached
only when `dto.body` is truthy (a non-empty string) and the method is neither
`GET` nor `HEAD` (exact comparison, as in the source). -/
def buildFetchOptions (dto : ExecuteRequestDto) : FetchOptionsModel :=
  let base : FetchOptionsModel :=
    { method := dto.method, headers := dto.headers.getD [], body := none }
  match dto.body with
  | some b =>
    if b != "" && dto.method != "GET" && dto.method != "HEAD" then
      { base with body := some b }
    else base
  | none => base

/-! ## Spec-side helpers

Definitions used only to *state* properties (dotted-quad construction, the
claimed reserved ranges, first-occurrence key order). -/

/-- The characters of the dotted-quad rendering `a.b.c.d`. -/
def mkIpv4Chars (a b c d : Nat) : List Char :=
  (Nat.repr a).data ++ '.' ::
    ((Nat.repr b).data ++ '.' :: ((Nat.repr c).data ++ '.' :: (Nat.repr d).data))

/-- The dotted-quad hostname `a.b.c.d`. -/
def mkIpv4 (a b c d : Nat) : String := String.mk (mkIpv4Chars a b c d)

/-- Membership of the IPv4 address `a.b.c.d` in the reserved/private ranges
the specification lists: 127/8, 10/8, 172.16/12, 192.168/16, 169.254/16,
100.64/10 and 0/8 (only the octets the CIDR mask constrains appear). -/
def reservedIpv4 (a b : Nat) : Prop :=
  a = 127 ∨ a = 10 ∨ (a = 172 ∧ 16 ≤ b ∧ b ≤ 31) ∨ (a = 192 ∧ b = 168) ∨
    (a = 169 ∧ b = 254) ∨ (a = 100 ∧ 64 ≤ b ∧ b ≤ 127) ∨ a = 0

/-- The deduplication keys of the entries, one per distinct key, in order of
first occurrence. -/
def firstKeys (entries : List CompactEntry) : List String :=
  entries.foldl
    (fun acc e =>
      if acc.contains (getDeduplicationKey e) then acc
      else acc ++ [getDeduplicationKey e])
    []

/-! ## Concrete fixtures used by the closed theorems -/

/-- A minimal capture entry, shaped like the `makeEntry` helper of the
repository's own test files. -/
def fixtureEntry (method url mimeType : String) (status : Nat)
    (hs : List Header) (pd : Option PostData) : HarEntry :=
  { startedDateTime := "2024-01-01T00:00:00.000Z", time := 100,
    request := { method := method, url := url, httpVersion := "HTTP/2",
                 headers := hs, queryString := [], postData := pd,
                 headersSize := 0, bodySize := 0 },
    response := { status := status, statusText := "OK", httpVersion := "HTTP/2",
                  headers := [],
                  content := { size := 1024, mimeType := mimeType,
                               text := some "response body" },
                  redirectURL := "", headersSize := 0, bodySize := 0 },
    timings := { send := 0, wait := 50, receive := 50 } }

/-- An HTML page load (removed by the filter). -/
def demoHtmlEntry : HarEntry :=
  fixtureEntry "GET" "https://site.example.com/page" "text/html" 200 [] none

/-- A JSON API call (kept by the filter). -/
def demoApiEntry : HarEntry :=
  fixtureEntry "GET" "https://api.example.com/data" "application/json" 200 [] none

/-- A GET entry for the method-flag witness. -/
def demoGetEntry : HarEntry :=
  fixtureEntry "GET" "https://api.example.com/users" "application/json" 200 [] none

/-- A PUT entry for the method-flag witness. -/
def demoPutEntry : HarEntry :=
  fixtureEntry "PUT" "https://api.example.com/data" "application/json" 200 [] none

/-- An entry carrying the HTTP/2 response pseudo-header `:status` among its
request headers. -/
def pseudoHeaderEntry : HarEntry :=
  fixtureEntry "GET" "https://api.example.com/data" "application/json" 200
    [{ name := ":status", value := "200" }] none

/-- A POST entry whose request body is 20000 characters long. -/
def demoLongBodyEntry : HarEntry :=
  fixtureEntry "POST" "https://api.example.com/data" "application/json" 200 []
    (some { mimeType := "application/json",
            text := String.mk (List.replicate 20000 'x'), params := none })

/-- `GET /users?page=1&limit=10` as a compact entry. -/
def usersPage1Entry : CompactEntry :=
  { index := 0, method := "GET", url := "https://api.com/users?page=1&limit=10",
    status := 200, responseType := "application/json", responseSize := 1024 }

/-- `GET /users?page=2&limit=10` as a compact entry. -/
def usersPage2Entry : CompactEntry :=
  { index := 1, method := "GET", url := "https://api.com/users?page=2&limit=10",
    status := 200, responseType := "application/json", responseSize := 1024 }

/-- `GET /x?a=1&a=2`: the parameter name `a` occurs twice. -/
def dupParamEntryA : CompactEntry :=
  { index := 0, method := "GET", url := "https://api.com/x?a=1&a=2",
    status := 200, responseType := "application/json", responseSize := 1024 }

/-- `GET /x?a=3`: the parameter name `a` occurs once. -/
def dupParamEntryB : CompactEntry :=
  { index := 1, method := "GET", url := "https://api.com/x?a=3",
    status := 200, responseType := "application/json", responseSize := 1024 }

/-- A stored session created at time 0. -/
def demoStoredHar : StoredHar :=
  { entries := [], compactEntries := [], createdAt := 0 }

/-! # Theorems -/

/-- Every entry lands in exactly one bucket: the seven per-reason counts plus
the kept count add up to the total. -/
theorem countReason_add_kept (entries : List HarEntry) :
    countReason entries .html + countReason entries .staticAssetMime +
      countReason entries .staticAssetUrl + countReason entries .tracking +
      countReason entries .dataBlob + countReason entries .redirects +
      countReason entries .options +
      (entries.filter (fun e => (classifyEntry e).isNone)).length =
      entries.length := by
  induction entries with
  | nil => simp [countReason]
  | cons e es ih =>
    cases hc : classifyEntry e with
    | none =>
      simp [countReason, List.countP_cons, List.filter_cons, hc] at *
      omega
    | some r =>
      cases r <;> simp [countReason, List.countP_cons, List.filter_cons, hc] at * <;>
        omega

/-- C6 (confirmed).  For every list of HAR entries, `filterEntries` attributes
each removed entry to exactly one removal reason — the first matching
predicate in the fixed order html, staticAssetMime, staticAssetUrl, tracking,
dataBlob, redirects, options — so kept + removed = total and the breakdown
counts sum to the removed count. -/
theorem filterEntries_partition (entries : List HarEntry) :
    (filterEntries entries).stats.kept + (filterEntries entries).stats.removed =
        (filterEntries entries).stats.total ∧
      breakdownSum (filterEntries entries).breakdown =
        (filterEntries entries).stats.removed := by
  have hsum := countReason_add_kept entries
  have hle : (entries.filter (fun e => (classifyEntry e).isNone)).length ≤
      entries.length := List.length_filter_le _ _
  constructor
  · simp only [filterEntries]
    omega
  · simp only [filterEntries, breakdownSum]
    omega

/-- C8 (confirmed).  `stripBodies` removes the response content text
unconditionally, truncates any request `postData.text` longer than 10000
characters to exactly 10000 (silently — the function is total), keeps a
shorter text verbatim, and leaves every other field of every entry
unchanged.  The entries are related position by position. -/
theorem stripBodies_spec (entries : List HarEntry) :
    List.Forall₂
      (fun e e' =>
        e'.response.content.text = none ∧
        e'.request.postData =
          e.request.postData.map
            (fun pd => { pd with text := jsSubstringTo pd.text 10000 }) ∧
        (∀ pd, e.request.postData = some pd → 10000 < pd.text.length →
          ∃ pd', e'.request.postData = some pd' ∧ pd'.text.length = 10000 ∧
            pd'.text.data <+: pd.text.data) ∧
        (∀ pd pd', e.request.postData = some pd → e'.request.postData = some pd' →
          pd'.mimeType = pd.mimeType ∧ pd'.params = pd.params ∧
          (pd.text.length ≤ 10000 → pd'.text = pd.text)) ∧
        e'.startedDateTime = e.startedDateTime ∧ e'.time = e.time ∧
        e'.timings = e.timings ∧
        e'.request.method = e.request.method ∧ e'.request.url = e.request.url ∧
        e'.request.httpVersion = e.request.httpVersion ∧
        e'.request.headers = e.request.headers ∧
        e'.request.queryString = e.request.queryString ∧
        e'.request.headersSize = e.request.headersSize ∧
        e'.request.bodySize = e.request.bodySize ∧
        e'.response.status = e.response.status ∧
        e'.response.statusText = e.response.statusText ∧
        e'.response.httpVersion = e.response.httpVersion ∧
        e'.response.headers = e.response.headers ∧
        e'.response.content.size = e.response.content.size ∧
        e'.response.content.mimeType = e.response.content.mimeType ∧
        e'.response.redirectURL = e.response.redirectURL ∧
        e'.response.headersSize = e.response.headersSize ∧
        e'.response.bodySize = e.response.bodySize)
      entries (stripBodies entries) := by
  induction entries with
  | nil => exact List.Forall₂.nil
  | cons e es ih =>
    refine List.Forall₂.cons ?_ ih
    refine ⟨rfl, rfl, ?_, ?_, rfl, rfl, rfl, rfl, rfl, rfl, rfl, rfl, rfl, rfl,
      rfl, rfl, rfl, rfl, rfl, rfl, rfl, rfl, rfl⟩
    · intro pd hpd hlen
      refine ⟨{ pd with text := jsSubstringTo pd.text 10000 }, ?_, ?_, ?_⟩
      · simp [stripEntry, hpd]
      · show (pd.text.data.take 10000).length = 10000
        rw [List.length_take]
        have hd : pd.text.length = pd.text.data.length := rfl
        omega
      · exact List.take_prefix _ _
    · intro pd pd' hpd hpd'
      have hpd2 : (stripEntry e).request.postData =
          some { pd with text := jsSubstringTo pd.text 10000 } := by
        simp [stripEntry, hpd]
      rw [hpd2] at hpd'
      injection hpd' with h2
      subst h2
      refine ⟨rfl, rfl, ?_⟩
      intro hle
      have hl : pd.text.data.length ≤ 10000 := hle
      show String.mk (pd.text.data.take 10000) = pd.text
      rw [List.take_of_length_le hl]

/-- C8 witness: the specification applied to a concrete two-entry capture,
one entry carrying a 20000-character request body. -/
theorem stripBodies_spec_witness :
    List.Forall₂ (fun e e' => e'.response.content.text = none ∧
        e'.request.postData =
          e.request.postData.map
            (fun pd => { pd with text := jsSubstringTo pd.text 10000 }) ∧
        (∀ pd, e.request.postData = some pd → 10000 < pd.text.length →
          ∃ pd', e'.request.postData = some pd' ∧ pd'.text.length = 10000 ∧
            pd'.text.data <+: pd.text.data) ∧
        (∀ pd pd', e.request.postData = some pd → e'.request.postData = some pd' →
          pd'.mimeType = pd.mimeType ∧ pd'.params = pd.params ∧
          (pd.text.length ≤ 10000 → pd'.text = pd.text)) ∧
        e'.startedDateTime = e.startedDateTime ∧ e'.time = e.time ∧
        e'.timings = e.timings ∧
        e'.request.method = e.request.method ∧ e'.request.url = e.request.url ∧
        e'.request.httpVersion = e.request.httpVersion ∧
        e'.request.headers = e.request.headers ∧
        e'.request.queryString = e.request.queryString ∧
        e'.request.headersSize = e.request.headersSize ∧
        e'.request.bodySize = e.request.bodySize ∧
        e'.response.status = e.response.status ∧
        e'.response.statusText = e.response.statusText ∧
        e'.response.httpVersion = e.response.httpVersion ∧
        e'.response.headers = e.response.headers ∧
        e'.response.content.size = e.response.content.size ∧
        e'.response.content.mimeType = e.response.content.mimeType ∧
        e'.response.redirectURL = e.response.redirectURL ∧
        e'.response.headersSize = e.response.headersSize ∧
        e'.response.bodySize = e.response.bodySize)
      [demoLongBodyEntry, demoApiEntry]
      (stripBodies [demoLongBodyEntry, demoApiEntry]) :=
  stripBodies_spec [demoLongBodyEntry, demoApiEntry]

/-- C9 (confirmed).  When the execute request's method is `GET` or `HEAD`,
the assembled fetch options carry no body, even when a body string was
supplied. -/
theorem execute_get_head_no_body (dto : ExecuteRequestDto)
    (h : dto.method = "GET" ∨ dto.method = "HEAD") :
    (buildFetchOptions dto).body = none := by
  rcases h with h | h <;> cases hb : dto.body <;> simp [buildFetchOptions, hb, h]

/-- C9 witness: a GET execute request with a supplied body still produces
bodiless fetch options. -/
theorem execute_get_head_no_body_witness :
    (buildFetchOptions
      { url := "https://api.example.com/data", method := "GET",
        headers := none, body := some "payload" }).body = none :=
  execute_get_head_no_body _ (Or.inl rfl)

/-- The indices produced by the mapping loop of `toCompactEntries` are the
consecutive positions starting at the loop's start index. -/
theorem toCompactFrom_map_index (i : Nat) (es : List HarEntry) :
    (toCompactFrom i es).map (fun c => c.index) = List.range' i es.length := by
  induction es generalizing i with
  | nil => simp [toCompactFrom]
  | cons e es ih => simp [toCompactFrom, toCompactAt, List.range'_succ, ih]

/-- The compact entry at position `j` is the projection of the source entry
at position `j`, carrying `j` itself as index. -/
theorem toCompactFrom_get (i : Nat) (es : List HarEntry) (j : Nat)
    (h1 : j < (toCompactFrom i es).length) (h2 : j < es.length) :
    (toCompactFrom i es).get ⟨j, h1⟩ = toCompactAt (i + j) (es.get ⟨j, h2⟩) := by
  induction es generalizing i j with
  | nil => exact absurd h2 (by simp)
  | cons e es ih =>
    cases j with
    | zero => simp [toCompactFrom]
    | succ j =>
      have h1' : j < (toCompactFrom (i + 1) es).length := by
        simpa [toCompactFrom] using h1
      have h2' : j < es.length := by simpa using h2
      have := ih (i + 1) j h1' h2'
      simpa [toCompactFrom, Nat.add_assoc, Nat.add_comm 1 j] using this

/-- C1 counterexample.  A two-entry capture whose first entry is an HTML page
(removed by the filter): the single kept entry sits at position 1 of the
original capture order, yet the compact entry stored in the session and
returned as the upload response's filtered `entries` records index 0 — the
index was reassigned after filtering. -/
theorem upload_index_counterexample :
    (filterEntries [demoHtmlEntry, demoApiEntry]).filtered = [demoApiEntry] ∧
    (uploadResponseEntries [demoHtmlEntry, demoApiEntry]).map
        (fun c => (c.index, c.url)) = [(0, "https://api.example.com/data")] ∧
    [demoHtmlEntry, demoApiEntry].map (fun e => e.request.url) =
      ["https://site.example.com/page", "https://api.example.com/data"] := by
  refine ⟨rfl, rfl, rfl⟩

/-- C1 amended (corrected).  The index recorded in a `CompactEntry` is the
entry's 0-based position in the list handed to `toCompactEntries`.  For the
upload response's `allEntries` that is the original capture order; for the
filtered `entries` — the same list the session stores — it is the position in
the *filtered* order, i.e. the indices are reassigned after filtering
whenever the filter removed an earlier entry. -/
theorem toCompactEntries_positional (entries : List HarEntry) :
    ((toCompactEntries entries).map (fun c => c.index) =
        List.range entries.length) ∧
    (∀ j, ∀ h1 : j < (toCompactEntries entries).length, ∀ h2 : j < entries.length,
      (toCompactEntries entries).get ⟨j, h1⟩ = toCompactAt j (entries.get ⟨j, h2⟩)) ∧
    ((uploadResponseAllEntries entries).map (fun c => c.index) =
        List.range entries.length) ∧
    ((uploadResponseEntries entries).map (fun c => c.index) =
        List.range (filterEntries entries).filtered.length) ∧
    (∀ now, (uploadStored entries now).compactEntries =
        uploadResponseEntries entries) := by
  refine ⟨?_, ?_, ?_, ?_, fun _ => rfl⟩
  · rw [toCompactEntries, toCompactFrom_map_index, List.range_eq_range']
  · intro j h1 h2
    simpa using toCompactFrom_get 0 entries j h1 h2
  · rw [uploadResponseAllEntries, toCompactEntries, toCompactFrom_map_index,
      List.range_eq_range']
  · rw [uploadResponseEntries, toCompactEntries, toCompactFrom_map_index,
      List.range_eq_range']

/-- C1 amended witness: the positional description applied to the concrete
two-entry capture, reading off the single stored compact entry. -/
theorem toCompactEntries_positional_witness :
    (toCompactEntries [demoApiEntry]).get ⟨0, by decide⟩ =
      toCompactAt 0 demoApiEntry :=
  (toCompactEntries_positional [demoApiEntry]).2.1 0 (by decide) (by decide)

/-- C7 counterexample.  A session created at time 0 with every periodic sweep
(one per 5-minute interval) applied through the 30-minute mark: at wall time
`TTL_MS + 1` the session's age exceeds the TTL, no later sweep has run yet,
and the lookup `store.get` — which takes no clock at all — still returns the
session. -/
theorem session_lookup_expired_counterexample :
    TTL_MS < (TTL_MS + 1) - demoStoredHar.createdAt ∧
    storeGet
      (List.foldl (fun st t => cleanupStore t st) [("sid", demoStoredHar)]
        [SWEEP_INTERVAL_MS, 2 * SWEEP_INTERVAL_MS, 3 * SWEEP_INTERVAL_MS,
         4 * SWEEP_INTERVAL_MS, 5 * SWEEP_INTERVAL_MS, 6 * SWEEP_INTERVAL_MS])
      "sid" = some demoStoredHar := by
  refine ⟨by decide, by decide⟩

/-- C7 amended (corrected).  The lookup performs no expiry check of its own
(see the counterexample), but the periodic cleanup deletes every session
whose age exceeds the TTL: any session still retrievable after a sweep at
time `now` has age at most `TTL_MS` at that sweep, so staleness is bounded by
the 5-minute sweep interval rather than by lookup-time expiry. -/
theorem session_cleanup_expiry (now : Nat) (store : List (String × StoredHar))
    (id : String) (s : StoredHar)
    (h : storeGet (cleanupStore now store) id = some s) :
    now - s.createdAt ≤ TTL_MS := by
  unfold storeGet at h
  cases hf : (cleanupStore now store).find? (fun x => x.1 == id) with
  | none => rw [hf] at h; simp at h
  | some x =>
    rw [hf] at h
    simp only [Option.map_some', Option.some.injEq] at h
    have hmem := List.mem_of_find?_eq_some hf
    unfold cleanupStore at hmem
    have hp := (List.mem_filter.mp hmem).2
    simp at hp
    subst h
    omega

/-- C7 amended witness: a fresh session surviving a sweep at time 100 indeed
has age within the TTL. -/
theorem session_cleanup_expiry_witness :
    (100 : Nat) - demoStoredHar.createdAt ≤ TTL_MS :=
  session_cleanup_expiry 100 [("sid", demoStoredHar)] "sid" demoStoredHar
    (by decide)

/-- Every dotted quad whose leading octets lie in one of the reserved IPv4
ranges of the specification is caught by `BLOCKED_IP_PATTERNS`. -/
theorem isBlockedIp_reserved (a b c d : Nat) (hb : b ≤ 255)
    (hr : reservedIpv4 a b) : isBlockedIp (mkIpv4 a b c d) = true := by
  rcases hr with rfl | rfl | ⟨rfl, hb1, hb2⟩ | ⟨rfl, rfl⟩ | ⟨rfl, rfl⟩ |
    ⟨rfl, hb1, hb2⟩ | rfl
  · rfl
  · rfl
  · interval_cases b <;> rfl
  · rfl
  · rfl
  · interval_cases b <;> rfl
  · rfl

/-- A dotted quad of a reserved range never equals one of the three blocked
hostname literals (they start with a letter, the quad with a digit). -/
theorem mkIpv4_not_blockedHost (a b c d : Nat) (hr : reservedIpv4 a b) :
    BLOCKED_HOSTNAMES.contains (mkIpv4 a b c d) = false := by
  rcases hr with rfl | rfl | ⟨rfl, hb1, hb2⟩ | ⟨rfl, rfl⟩ | ⟨rfl, rfl⟩ |
    ⟨rfl, hb1, hb2⟩ | rfl <;> rfl

/-- C2 amended (corrected).  For every URL that parses, has an http/https
protocol, and whose (lowercased) hostname is a literal IPv4 address in one of
the reserved ranges — 127/8, 10/8, 172.16/12, 192.168/16, 169.254/16,
100.64/10, 0/8 — the replay validator fails with the blocked-IP error before
any DNS resolution or network fetch.  (The IPv6 side of the original claim is
what fails; see the counterexample.) -/
theorem validateUrl_blocks_reserved_ipv4 (url : String) (p : ParsedUrl)
    (a b c d : Nat)
    (hparse : parseUrl url = some p)
    (hproto : p.protocol = "http:" ∨ p.protocol = "https:")
    (hhost : jsToLower p.hostname = mkIpv4 a b c d)
    (hb : b ≤ 255) (hr : reservedIpv4 a b) :
    validateUrlSync url = .error .blockedIp := by
  have hbh := mkIpv4_not_blockedHost a b c d hr
  have hip := isBlockedIp_reserved a b c d hb hr
  have hbh' : mkIpv4 a b c d ∉ BLOCKED_HOSTNAMES := by simpa using hbh
  have h1 : (p.protocol != "http:" && p.protocol != "https:") = false := by
    rcases hproto with h | h <;> simp [h]
  simp [validateUrlSync, hparse, hhost, h1, hbh', hip]

/-- C2 witness: `http://127.0.0.1/x` is rejected with the blocked-IP error. -/
theorem validateUrl_blocks_reserved_ipv4_witness :
    validateUrlSync "http://127.0.0.1/x" = .error .blockedIp :=
  validateUrl_blocks_reserved_ipv4 "http://127.0.0.1/x"
    { protocol := "http:", hostname := "127.0.0.1", port := "",
      pathname := "/x", search := "" }
    127 0 0 1 rfl (Or.inl rfl) rfl (by decide) (Or.inl rfl)

/-- C2 counterexample.  `fd00::1` lies inside `fc00::/7` (its first group
shares the top seven bits with `fc00`), yet no pattern of
`BLOCKED_IP_PATTERNS` matches it — the regex `^fc00:` tests the textual
prefix only — so the validator lets `http://[fd00::1]/x` through instead of
failing with a blocked-IP error. -/
theorem validateUrl_ipv6_counterexample :
    (0xfd00 : Nat) / 512 = (0xfc00 : Nat) / 512 ∧
    isBlockedIp "fd00::1" = false ∧
    validateUrlSync "http://[fd00::1]/x" = Except.ok () := by
  refine ⟨by norm_num, rfl, rfl⟩

/-- C3 (confirmed).  The method flag is omitted exactly when the (uppercased)
method is `GET`, or is `POST` with a request body present (non-empty
`postData.text`, or non-empty `params`); in every other case the command
contains the part `-X METHOD`.  "Omitted" is literal: no part of the command
even starts with `-X `. -/
theorem generateCurl_method_flag (entry : HarEntry) :
    ((jsToUpper entry.request.method = "GET" ∨
        (jsToUpper entry.request.method = "POST" ∧ hasBody entry.request = true)) →
      ∀ part ∈ generateCurlParts entry, jsStartsWith part "-X " = false) ∧
    (¬(jsToUpper entry.request.method = "GET" ∨
        (jsToUpper entry.request.method = "POST" ∧ hasBody entry.request = true)) →
      ("-X " ++ jsToUpper entry.request.method) ∈ generateCurlParts entry) := by
  constructor
  · intro h part hp
    have hm : methodParts entry.request = [] := by
      rcases h with h | ⟨h, hb⟩
      · simp [methodParts, h]
      · simp [methodParts, h, hb]
    simp only [generateCurlParts, hm, List.append_nil, List.nil_append,
      List.cons_append, List.mem_cons, List.mem_append] at hp
    rcases hp with rfl | rfl | hp | hp
    · rfl
    · rfl
    · obtain ⟨h', _, rfl⟩ := List.mem_map.mp hp
      rfl
    · rw [bodyParts] at hp
      cases hpd : entry.request.postData with
      | none => rw [hpd] at hp; simp at hp
      | some pd =>
        rw [hpd] at hp
        by_cases ht : pd.text != ""
        · simp only [ht, if_true] at hp
          simp at hp
          subst hp
          rfl
        · simp only [ht, if_false] at hp
          cases hps : pd.params with
          | none => rw [hps] at hp; simp at hp
          | some ps =>
            rw [hps] at hp
            by_cases hl : ps.length > 0
            · simp only [hl, if_true] at hp
              obtain ⟨q, _, rfl⟩ := List.mem_map.mp hp
              rfl
            · simp only [hl, if_false] at hp
              simp at hp
  · intro h
    push_neg at h
    obtain ⟨h1, h2⟩ := h
    have hm : methodParts entry.request =
        ["-X " ++ jsToUpper entry.request.method] := by
      by_cases hp3 : jsToUpper entry.request.method = "POST"
      · have hb : hasBody entry.request = false := by
          cases hbv : hasBody entry.request
          · rfl
          · exact absurd hbv (h2 hp3)
        simp [methodParts, h1, hp3, hb]
      · simp [methodParts, h1, hp3]
    simp [generateCurlParts, hm]

/-- C3 witness: the no-flag direction at a concrete GET entry, and the
`-X`-direction at a concrete PUT entry. -/
theorem generateCurl_method_flag_witness :
    (∀ part ∈ generateCurlParts demoGetEntry, jsStartsWith part "-X " = false) ∧
    ("-X " ++ jsToUpper demoPutEntry.request.method) ∈
      generateCurlParts demoPutEntry :=
  ⟨(generateCurl_method_flag demoGetEntry).1 (Or.inl rfl),
   (generateCurl_method_flag demoPutEntry).2 (by decide)⟩

/-- `escapeChars` distributes over concatenation. -/
theorem escapeChars_append (l₁ l₂ : List Char) :
    escapeChars (l₁ ++ l₂) = escapeChars l₁ ++ escapeChars l₂ := by
  induction l₁ with
  | nil => rfl
  | cons c cs ih => by_cases h : c = squote <;> simp [escapeChars, beq_iff_eq, h, ih]

/-- `escapeChars` replaces every single quote by the four-character escape
and keeps every other character.  (The statement uses `List.flatMap`, one
replacement block per input character.) -/
theorem escapeChars_eq_flatMap (l : List Char) :
    escapeChars l = l.flatMap
      (fun c => if c == squote then [squote, bslash, squote, squote] else [c]) := by
  induction l with
  | nil => rfl
  | cons c cs ih => by_cases h : c = squote <;> simp [escapeChars, beq_iff_eq, h, ih]

/-- C4 counterexample.  `:status` starts with a colon — a protocol
pseudo-header — yet `generateCurl` emits it: the skip list names only the
four request pseudo-headers `:method`, `:path`, `:scheme`, `:authority`, not
every name starting with `:`. -/
theorem generateCurl_pseudo_header_counterexample :
    jsStartsWith ":status" ":" = true ∧
    ("-H ':status: 200'") ∈ generateCurlParts pseudoHeaderEntry := by
  refine ⟨rfl, ?_⟩
  have hparts : generateCurlParts pseudoHeaderEntry =
      ["curl", "'https://api.example.com/data'", "-H ':status: 200'"] := rfl
  rw [hparts]
  simp

/-- C4 amended (corrected).  The generated command never contains a header
whose lowercased name is in the skip list (`host`, `connection`,
`content-length`, `accept-encoding`, `:method`, `:path`, `:scheme`,
`:authority` — not arbitrary colon-initial names, see the counterexample);
every remaining header appears as a `-H 'Name: value'` part in original
order; the values of the sensitive headers are replaced by exactly
`[REDACTED]` (the emitted part is independent of the value); and every single
quote of an emitted header value or body is escaped as quote-backslash-
quote-quote. -/
theorem generateCurl_headers_amended (entry : HarEntry) :
    (curlHeaderParts entry.request =
      (entry.request.headers.filter
        (fun h => !(SKIP_HEADERS.contains (jsToLower h.name)))).map
          renderHeaderPart) ∧
    (∀ part ∈ curlHeaderParts entry.request, ∃ h, h ∈ entry.request.headers ∧
      SKIP_HEADERS.contains (jsToLower h.name) = false ∧
      part = renderHeaderPart h) ∧
    (∀ h : Header, SENSITIVE_HEADERS.contains (jsToLower h.name) = true →
      renderHeaderPart h = "-H '" ++ escapeShell h.name ++ ": [REDACTED]'") ∧
    (∀ h h' : Header, SENSITIVE_HEADERS.contains (jsToLower h.name) = true →
      h'.name = h.name → renderHeaderPart h' = renderHeaderPart h) ∧
    (∀ s : String, (escapeShell s).data =
      s.data.flatMap
        (fun c => if c == squote then [squote, bslash, squote, squote]
                  else [c])) := by
  refine ⟨rfl, ?_, ?_, ?_, ?_⟩
  · intro part hp
    obtain ⟨h, hmem, rfl⟩ := List.mem_map.mp hp
    obtain ⟨hmem', hkeep⟩ := List.mem_filter.mp hmem
    exact ⟨h, hmem', by simpa using hkeep, rfl⟩
  · intro h hsens
    have hmem : jsToLower h.name ∈ SENSITIVE_HEADERS := by simpa using hsens
    have hd : displayHeaderValue h = "[REDACTED]" := by
      simp [displayHeaderValue, hmem]
    apply String.ext
    rw [renderHeaderPart, hd]
    simp only [escapeShell, String.data_append, escapeChars_append]
    simp only [List.append_assoc]
    rfl
  · intro h h' hsens hname
    have hmem : jsToLower h.name ∈ SENSITIVE_HEADERS := by simpa using hsens
    simp [renderHeaderPart, displayHeaderValue, hname, hmem]
  · intro s
    exact escapeChars_eq_flatMap s.data

/-- C4 amended witness: the emitted part for a concrete `Authorization`
header shows `[REDACTED]` and not the secret value. -/
theorem generateCurl_headers_amended_witness :
    renderHeaderPart { name := "Authorization", value := "Bearer token123" } =
      "-H '" ++ escapeShell "Authorization" ++ ": [REDACTED]'" :=
  (generateCurl_headers_amended demoApiEntry).2.2.1
    { name := "Authorization", value := "Bearer token123" } rfl

/-- One assignment pass of the `requestHeaders` loop over an arbitrary
initial record `m`: looking up `n` afterwards yields the last kept header
named `n`, falling back to `m n`. -/
theorem foldlAssign_apply (headers : List Header) (m : String → Option String)
    (n : String) :
    headers.foldl
      (fun m h =>
        if analyzeKeepsHeader h then
          fun k => if k == h.name then some h.value else m k
        else m)
      m n =
    ((headers.filter
      (fun h => analyzeKeepsHeader h && h.name == n)).getLast?).elim
      (m n) (fun x => some x.value) := by
  induction headers generalizing m with
  | nil => rfl
  | cons h hs ih =>
    rw [List.foldl_cons, ih, List.filter_cons]
    by_cases hk : (analyzeKeepsHeader h && h.name == n) = true
    · have hk' := hk
      rw [Bool.and_eq_true] at hk'
      have hk1 : analyzeKeepsHeader h = true := hk'.1
      have hk2 : (n == h.name) = true := by
        have h2 := hk'.2
        rw [beq_iff_eq] at h2 ⊢
        exact h2.symm
      rw [if_pos hk]
      cases hfs : hs.filter (fun x => analyzeKeepsHeader x && x.name == n) with
      | nil =>
        simp only [hfs, List.getLast?_nil, List.getLast?_singleton,
          Option.elim_none, Option.elim_some]
        show (if analyzeKeepsHeader h = true then
            (fun k => if (k == h.name) = true then some h.value else m k)
          else m) n = some h.value
        rw [if_pos hk1]
        show (if (n == h.name) = true then some h.value else m n) = some h.value
        rw [if_pos hk2]
      | cons y ys =>
        rw [List.getLast?_cons_cons]
        cases hz : (y :: ys).getLast? with
        | none =>
          rw [List.getLast?_eq_none_iff] at hz
          simp at hz
        | some z => rfl
    · have hstep : (if analyzeKeepsHeader h = true then
          (fun k => if (k == h.name) = true then some h.value else m k)
        else m) n = m n := by
        by_cases hk1 : analyzeKeepsHeader h = true
        · rw [if_pos hk1]
          have hk2 : (n == h.name) = false := by
            cases hb : (n == h.name)
            · rfl
            · exfalso
              apply hk
              rw [Bool.and_eq_true]
              refine ⟨hk1, ?_⟩
              rw [beq_iff_eq] at hb ⊢
              exact hb.symm
          show (if (n == h.name) = true then some h.value else m n) = m n
          rw [hk2]
          simp
        · rw [if_neg hk1]
      rw [if_neg hk, hstep]

/-- The `requestHeaders` record lookup: the value recorded under `n` is the
value of the *last* kept header whose name is exactly `n`. -/
theorem buildRequestHeaders_lookup (headers : List Header) (n : String) :
    buildRequestHeaders headers n =
      ((headers.filter
        (fun h => analyzeKeepsHeader h && h.name == n)).getLast?).map
        (fun h => h.value) := by
  have h := foldlAssign_apply headers (fun _ => none) n
  rw [buildRequestHeaders]
  cases hfo : (headers.filter
      (fun h => analyzeKeepsHeader h && h.name == n)).getLast? <;>
    simp [hfo] at h <;> simp [hfo, h]

/-- C10 (confirmed).  The analyze response's `requestDetails.headers` is a
flat record keyed by the original header name: for any header list and name,
the recorded value is that of the last kept occurrence with exactly that name
(multiplicity is lost).  The generated curl command, by contrast, emits every
occurrence as its own `-H` part in original order, as the concrete duplicate
example shows. -/
theorem analyze_requestHeaders_last_wins :
    (∀ headers : List Header, ∀ n : String,
      buildRequestHeaders headers n =
        ((headers.filter
          (fun h => analyzeKeepsHeader h && h.name == n)).getLast?).map
          (fun h => h.value)) ∧
    buildRequestHeaders
        [{ name := "X-Dup", value := "a" }, { name := "X-Dup", value := "b" }]
        "X-Dup" = some "b" ∧
    curlHeaderParts
        { method := "GET", url := "https://api.example.com/data",
          httpVersion := "HTTP/2",
          headers := [{ name := "X-Dup", value := "a" },
                      { name := "X-Dup", value := "b" }],
          queryString := [], postData := none, headersSize := 0,
          bodySize := 0 } =
      ["-H 'X-Dup: a'", "-H 'X-Dup: b'"] :=
  ⟨fun headers n => buildRequestHeaders_lookup headers n, rfl, rfl⟩

/-- Symmetry of string equality tests. -/
theorem string_beq_comm (a b : String) : (a == b) = (b == a) := by
  by_cases h : a = b
  · simp [h]
  · simp [h, Ne.symm h]

/-- Membership in the running first-occurrence key accumulator. -/
theorem firstKeys_foldl_mem (es : List CompactEntry) (acc : List String)
    (k : String) :
    (k ∈ es.foldl
      (fun a e =>
        if a.contains (getDeduplicationKey e) then a
        else a ++ [getDeduplicationKey e]) acc) ↔
      (k ∈ acc ∨ ∃ e ∈ es, getDeduplicationKey e = k) := by
  induction es generalizing acc with
  | nil => simp
  | cons e es ih =>
    rw [List.foldl_cons]
    by_cases hc : acc.contains (getDeduplicationKey e)
    · have hmem : getDeduplicationKey e ∈ acc := List.elem_iff.mp hc
      rw [if_pos hc, ih]
      constructor
      · rintro (h | ⟨x, hx, hk⟩)
        · exact Or.inl h
        · exact Or.inr ⟨x, List.mem_cons_of_mem e hx, hk⟩
      · rintro (h | ⟨x, hx, hk⟩)
        · exact Or.inl h
        · rcases List.mem_cons.mp hx with heq | hx'
          · subst heq
            exact Or.inl (hk ▸ hmem)
          · exact Or.inr ⟨x, hx', hk⟩
    · rw [if_neg hc, ih]
      constructor
      · rintro (h | ⟨x, hx, hk⟩)
        · rcases List.mem_append.mp h with h' | h'
          · exact Or.inl h'
          · have hkk : k = getDeduplicationKey e := by simpa using h'
            exact Or.inr ⟨e, List.mem_cons_self e es, hkk.symm⟩
        · exact Or.inr ⟨x, List.mem_cons_of_mem e hx, hk⟩
      · rintro (h | ⟨x, hx, hk⟩)
        · exact Or.inl (List.mem_append.mpr (Or.inl h))
        · rcases List.mem_cons.mp hx with heq | hx'
          · subst heq
            exact Or.inl (List.mem_append.mpr (Or.inr (by simp [hk.symm])))
          · exact Or.inr ⟨x, hx', hk⟩

/-- A key is in `firstKeys` exactly when some entry carries it. -/
theorem mem_firstKeys (entries : List CompactEntry) (k : String) :
    k ∈ firstKeys entries ↔ ∃ e ∈ entries, getDeduplicationKey e = k := by
  have h := firstKeys_foldl_mem entries [] k
  simpa [firstKeys] using h

/-- The first-occurrence accumulator never repeats a key. -/
theorem firstKeys_foldl_nodup (es : List CompactEntry) (acc : List String)
    (h : acc.Nodup) :
    (es.foldl
      (fun a e =>
        if a.contains (getDeduplicationKey e) then a
        else a ++ [getDeduplicationKey e]) acc).Nodup := by
  induction es generalizing acc with
  | nil => exact h
  | cons e es ih =>
    rw [List.foldl_cons]
    by_cases hc : acc.contains (getDeduplicationKey e)
    · rw [if_pos hc]
      exact ih _ h
    · rw [if_neg hc]
      refine ih _ ?_
      have hnm : getDeduplicationKey e ∉ acc := fun hm => hc (List.elem_iff.mpr hm)
      simp [List.nodup_append, h, hnm]

/-- `firstKeys` has no duplicate keys. -/
theorem firstKeys_nodup (entries : List CompactEntry) :
    (firstKeys entries).Nodup :=
  firstKeys_foldl_nodup entries [] List.nodup_nil

/-- One step of `firstKeys` at the end of the list. -/
theorem firstKeys_concat (es : List CompactEntry) (e : CompactEntry) :
    firstKeys (es ++ [e]) =
      if (firstKeys es).contains (getDeduplicationKey e) then firstKeys es
      else firstKeys es ++ [getDeduplicationKey e] := by
  rw [firstKeys, firstKeys, List.foldl_append]
  rfl

/-- Upserting a fresh key into a keyed map appends a new singleton group. -/
theorem upsert_map_of_not_mem (ks : List String)
    (G : String → List CompactEntry) (k : String) (e : CompactEntry)
    (hk : k ∉ ks) :
    upsertGroup (ks.map (fun x => (x, G x))) k e =
      ks.map (fun x => (x, G x)) ++ [(k, [e])] := by
  induction ks with
  | nil => rfl
  | cons x ks ih =>
    have hx : x ≠ k := fun h => hk (h ▸ List.mem_cons_self x ks)
    have hbeq : (x == k) = false := by simpa using hx
    have hk' : k ∉ ks := fun h => hk (List.mem_cons_of_mem x h)
    simp only [List.map_cons, upsertGroup, hbeq, Bool.false_eq_true, if_false,
      List.cons_append]
    rw [ih hk']

/-- Upserting an existing key (keys distinct) appends the entry to exactly
that key's group, in place. -/
theorem upsert_map_of_mem (ks : List String)
    (G : String → List CompactEntry) (k : String) (e : CompactEntry)
    (hnd : ks.Nodup) (hk : k ∈ ks) :
    upsertGroup (ks.map (fun x => (x, G x))) k e =
      ks.map (fun x => (x, G x ++ if x == k then [e] else [])) := by
  induction ks with
  | nil => simp at hk
  | cons x ks ih =>
    by_cases hx : x = k
    · subst hx
      have hnx : x ∉ ks := (List.nodup_cons.mp hnd).1
      have hhead : upsertGroup (List.map (fun y => (y, G y)) (x :: ks)) x e =
          (x, G x ++ [e]) :: List.map (fun y => (y, G y)) ks := by
        simp [upsertGroup]
      rw [hhead, List.map_cons]
      have h1 : (x, G x ++ [e]) =
          (x, G x ++ if x == x then [e] else []) := by simp
      have h2 : List.map (fun y => (y, G y)) ks =
          List.map (fun y => (y, G y ++ if y == x then [e] else [])) ks := by
        apply List.map_congr_left
        intro y hy
        have hne : (y == x) = false := by
          have hyx : y ≠ x := fun h => hnx (h ▸ hy)
          simpa using hyx
        simp [hne]
      rw [h1, h2]
    · have hbeq : (x == k) = false := by simpa using hx
      have hk' : k ∈ ks := by
        rcases List.mem_cons.mp hk with h | h
        · exact absurd h.symm hx
        · exact h
      simp only [List.map_cons, upsertGroup, hbeq, Bool.false_eq_true, if_false]
      rw [ih (List.nodup_cons.mp hnd).2 hk']
      congr 1
      simp [hbeq]

/-- The grouping fold, characterized: after processing `front ++ es`, the
groups are the keys in first-occurrence order, each paired with all entries
carrying that key, in input order. -/
theorem buildGroups_foldl_spec (es front : List CompactEntry) :
    es.foldl (fun gs e => upsertGroup gs (getDeduplicationKey e) e)
      ((firstKeys front).map
        (fun k => (k, front.filter (fun x => getDeduplicationKey x == k))))
    = (firstKeys (front ++ es)).map
        (fun k => (k, (front ++ es).filter
          (fun x => getDeduplicationKey x == k))) := by
  induction es generalizing front with
  | nil => simp
  | cons e es ih =>
    rw [List.foldl_cons]
    have hstep : upsertGroup
        ((firstKeys front).map
          (fun k => (k, front.filter (fun x => getDeduplicationKey x == k))))
        (getDeduplicationKey e) e =
      (firstKeys (front ++ [e])).map
        (fun k => (k, (front ++ [e]).filter
          (fun x => getDeduplicationKey x == k))) := by
      by_cases hc : (firstKeys front).contains (getDeduplicationKey e)
      · have hmem : getDeduplicationKey e ∈ firstKeys front := List.elem_iff.mp hc
        rw [upsert_map_of_mem _ _ _ _ (firstKeys_nodup front) hmem,
          firstKeys_concat, if_pos hc]
        apply List.map_congr_left
        intro k hk
        rw [List.filter_append]
        have hfe : List.filter (fun x => getDeduplicationKey x == k) [e] =
            if (k == getDeduplicationKey e) then [e] else [] := by
          rw [string_beq_comm]
          simp [List.filter_singleton]
        rw [hfe]
      · have hnmem : getDeduplicationKey e ∉ firstKeys front :=
          fun hm => hc (List.elem_iff.mpr hm)
        rw [upsert_map_of_not_mem _ _ _ _ hnmem, firstKeys_concat, if_neg hc,
          List.map_append]
        congr 1
        · apply List.map_congr_left
          intro k hk
          have hne : (getDeduplicationKey e == k) = false := by
            have hnek : getDeduplicationKey e ≠ k := fun h => hnmem (h ▸ hk)
            simpa using hnek
          rw [List.filter_append]
          simp [List.filter_singleton, hne]
        · simp only [List.map_cons, List.map_nil]
          have hfront : front.filter
              (fun x => getDeduplicationKey x == getDeduplicationKey e) = [] := by
            rw [List.filter_eq_nil_iff]
            intro x hx hbx
            apply hnmem
            exact (mem_firstKeys front (getDeduplicationKey e)).mpr
              ⟨x, hx, by simpa using hbx⟩
          rw [List.filter_append, hfront]
          simp [List.filter_singleton]
    rw [hstep, ih (front ++ [e]), List.append_assoc]
    rfl

/-- `buildGroups` in closed form: keys in first-occurrence order, each with
its full fiber of entries, in input order. -/
theorem buildGroups_eq (entries : List CompactEntry) :
    buildGroups entries = (firstKeys entries).map
      (fun k => (k, entries.filter (fun x => getDeduplicationKey x == k))) := by
  have h := buildGroups_foldl_spec entries []
  simpa [buildGroups, firstKeys] using h

/-- C5 counterexample.  `GET /x?a=1&a=2` and `GET /x?a=3` agree on method,
base URL and the *set* of query-parameter names (both use only `a`), so under
the claimed "sorted unique names" normalization they would share one group —
yet the code keeps one key occurrence per parameter instance, so their
deduplication keys differ and two summary lines are emitted. -/
theorem createLlmSummary_unique_params_counterexample :
    (normalizeUrl dupParamEntryA.url).1 = (normalizeUrl dupParamEntryB.url).1 ∧
    (∀ s, s ∈ (normalizeUrl dupParamEntryA.url).2 ↔
      s ∈ (normalizeUrl dupParamEntryB.url).2) ∧
    dupParamEntryA.method = dupParamEntryB.method ∧
    ((normalizeUrl dupParamEntryA.url).2 ==
      (normalizeUrl dupParamEntryB.url).2) = false ∧
    (getDeduplicationKey dupParamEntryA ==
      getDeduplicationKey dupParamEntryB) = false ∧
    (createLlmSummary [dupParamEntryA, dupParamEntryB] true).uniquePatterns = 2 := by
  refine ⟨rfl, ?_, rfl, rfl, rfl, rfl⟩
  intro s
  have h1 : (normalizeUrl dupParamEntryA.url).2 = ["a", "a"] := rfl
  have h2 : (normalizeUrl dupParamEntryB.url).2 = ["a"] := rfl
  rw [h1, h2]
  simp

/-- C5 amended (corrected).  With `deduplicate = true`, entries are grouped
by (method, origin+path, sorted query-parameter names *with multiplicity* —
not the unique name set, see the counterexample); one line is emitted per
group, groups in order of first occurrence; the representative is the group's
first occurrence, which under ascending input indices is its minimum-index
member; the `[xN]` suffix is appended exactly when the group has more than
one member; and the two `GET /users` page calls collapse to one placeholder
line bearing `[x2]` with no literal parameter values. -/
theorem createLlmSummary_dedup_amended (entries : List CompactEntry)
    (hmono : entries.Pairwise (fun x y => x.index < y.index)) :
    ((createLlmSummary entries true).summary =
        String.intercalate "\n" ((buildGroups entries).map renderGroup)) ∧
    ((createLlmSummary entries true).uniquePatterns =
        (buildGroups entries).length) ∧
    ((createLlmSummary entries true).originalEntries = entries.length) ∧
    (buildGroups entries = (firstKeys entries).map
      (fun k => (k, entries.filter (fun x => getDeduplicationKey x == k)))) ∧
    (∀ g ∈ buildGroups entries, ∃ rep rest, g.2 = rep :: rest ∧
      rep ∈ entries ∧ getDeduplicationKey rep = g.1 ∧
      renderGroup g = compactLine rep ++
        (if 1 < g.2.length then " [x" ++ toString g.2.length ++ "]" else "") ∧
      ∀ x ∈ g.2, rep.index ≤ x.index) ∧
    (createLlmSummary [usersPage1Entry, usersPage2Entry] true =
      { summary := "[0] GET https://api.com/users?limit=...&page=... → 200 (application/json, 1.0 KB) [x2]",
        uniquePatterns := 1, originalEntries := 2 }) := by
  refine ⟨rfl, rfl, rfl, buildGroups_eq entries, ?_, rfl⟩
  intro g hg
  rw [buildGroups_eq] at hg
  obtain ⟨k, hkmem, rfl⟩ := List.mem_map.mp hg
  obtain ⟨e0, he0, hke⟩ := (mem_firstKeys entries k).mp hkmem
  have he0f : e0 ∈ entries.filter (fun x => getDeduplicationKey x == k) := by
    rw [List.mem_filter]
    exact ⟨he0, by simp [hke]⟩
  cases hfl : entries.filter (fun x => getDeduplicationKey x == k) with
  | nil =>
    rw [hfl] at he0f
    simp at he0f
  | cons rep rest =>
    have hrepf : rep ∈ entries.filter (fun x => getDeduplicationKey x == k) := by
      rw [hfl]
      exact List.mem_cons_self rep rest
    refine ⟨rep, rest, rfl, (List.mem_filter.mp hrepf).1, ?_, rfl, ?_⟩
    · have hb := (List.mem_filter.mp hrepf).2
      simpa using hb
    · have hpf : (entries.filter
          (fun x => getDeduplicationKey x == k)).Pairwise
            (fun x y => x.index < y.index) := hmono.filter _
      rw [hfl] at hpf
      intro x hx
      rcases List.mem_cons.mp hx with heq | hx2
      · subst heq
        exact Nat.le_refl _
      · exact Nat.le_of_lt ((List.pairwise_cons.mp hpf).1 x hx2)

/-- C5 amended witness: the dedup description applied to the concrete
two-entry `GET /users` capture, reading off group count and summary line. -/
theorem createLlmSummary_dedup_amended_witness :
    ((createLlmSummary [usersPage1Entry, usersPage2Entry] true).uniquePatterns =
      (buildGroups [usersPage1Entry, usersPage2Entry]).length) ∧
    (createLlmSummary [usersPage1Entry, usersPage2Entry] true =
      { summary := "[0] GET https://api.com/users?limit=...&page=... → 200 (application/json, 1.0 KB) [x2]",
        uniquePatterns := 1, originalEntries := 2 }) :=
  ⟨(createLlmSummary_dedup_amended [usersPage1Entry, usersPage2Entry]
      (by decide)).2.1,
   (createLlmSummary_dedup_amended [usersPage1Entry, usersPage2Entry]
      (by decide)).2.2.2.2.2⟩

end HarToCurl
